import Mathlib

/-!
Verification of the chunked PDF-extraction pipeline of the legal-council
repository (`src/extraction-job`), against its natural-language specification.

The development shallowly embeds the Python source:

* JSON-like values (`json.loads` output / pydantic `model_dump` output) as the
  inductive type `JVal`; Python dicts as association lists with unique keys.
* `_merge_nested_value` and `_deep_merge_extraction`
  (`pdf_extraction.py`) as `mergeNestedValue` / `deepMergeExtraction`.
* `split_pdf_to_chunks` (its page-range arithmetic) as `splitPdfToChunks`.
* The model fallback chain and retry loop of `extract_from_pdf_chunk` /
  `_try_pdf_model_with_retries` as `extractFromPdfChunk` / `runChain` /
  `tryAttempts`, driven by an oracle assigning an outcome to every
  (model, attempt) pair and recording a trace of calls and backoff sleeps.
* The per-document chunk loop of `process_document_pdf_extraction` as
  `processDocumentChunks`.
* The failure-record path of `job.process_single_pdf` together with
  `database.insert_extraction` as `insertExtraction` / `storeFailureRecord`
  over a list-of-rows database state.
* For the purity (no-mutation) contract of the merge, a second, heap-based
  embedding (`Heap`, `hMergeNestedValue`, `hDeepMerge`) in which Python dicts
  are mutable objects at explicit addresses, so that "neither input is
  mutated" is expressible as frame preservation.
-/

namespace LegalCouncil

/-- JSON-like values, the shape of `json.loads` output and of pydantic
`model_dump()` output.  Python `None` and JSON `null` are both `JVal.null`. -/
inductive JVal where
  | null : JVal
  | str : String → JVal
  | num : Int → JVal
  | bool : Bool → JVal
  | arr : List JVal → JVal
  | obj : List (String × JVal) → JVal

/-- Python `x is None`. -/
def JVal.isNull : JVal → Bool
  | JVal.null => true
  | _ => false

/-- A scalar JSON value: a string, number or boolean (not `null`, not a
list, not a nested object). -/
def JVal.isScalar : JVal → Bool
  | JVal.str _ => true
  | JVal.num _ => true
  | JVal.bool _ => true
  | _ => false

/-- Python `key in d` for a dict represented as an association list. -/
def dictMem (d : List (String × α)) (k : String) : Bool :=
  d.any (fun p => p.1 == k)

/-- Lookup in an association-list dict: `some v` when the key is present. -/
def dictGet (d : List (String × α)) (k : String) : Option α :=
  (d.find? (fun p => p.1 == k)).map Prod.snd

/-- Python `d.get(k)`: the stored value, or `None` (`JVal.null`) when absent. -/
def pyGet (d : List (String × JVal)) (k : String) : JVal :=
  (dictGet d k).getD JVal.null

/-- Python `d[k] = v` on a dict with unique keys: replace the entry with key
`k` in place if present, otherwise append at the end. -/
def dictSet (d : List (String × α)) (k : String) (v : α) : List (String × α) :=
  match d with
  | [] => [(k, v)]
  | (k', v') :: rest => if k' = k then (k, v) :: rest else (k', v') :: dictSet rest k v

mutual

/-- Source: `_merge_nested_value(curr_val, new_val)` in
`src/extraction-job/pdf_extraction.py`.
Merge a single value: when both values are dicts, copy the current dict and
fold over the new dict's items (`mergeObjItems`); a new list replaces unless
empty (an empty new list keeps a non-empty current list); a non-`None`
scalar (or non-dict, non-list value) overwrites; `None` keeps the current
value. -/
def mergeNestedValue (currVal newVal : JVal) : JVal :=
  match newVal, currVal with
  | JVal.obj nf, JVal.obj cf => JVal.obj (mergeObjItems cf cf nf)
  | JVal.obj _, _ => newVal
  | JVal.arr xs, _ =>
      if !xs.isEmpty then newVal
      else match currVal with
        | JVal.arr cs => if !cs.isEmpty then currVal else newVal
        | _ => newVal
  | JVal.null, _ => currVal
  | _, _ => newVal

/-- The `for key, val in new_val.items()` loop of `_merge_nested_value`:
`res` starts as `curr_val.copy()` and is updated key by key — keys present
in the current dict are merged recursively, new keys are added only when
their value is not `None`. -/
def mergeObjItems (cf res : List (String × JVal)) :
    List (String × JVal) → List (String × JVal)
  | [] => res
  | (k, v) :: rest =>
      if dictMem cf k then
        mergeObjItems cf (dictSet res k (mergeNestedValue (pyGet cf k) v)) rest
      else if !v.isNull then
        mergeObjItems cf (dictSet res k v) rest
      else
        mergeObjItems cf res rest

end

/-- A `PartialResult`: the pydantic `ExtractionResult` for one chunk, as seen
by `_deep_merge_extraction` — `model_fields_set` (the explicitly-present
top-level fields) together with `model_dump()` (all fields, explicit `None`
included). -/
structure PartialResult where
  fieldsSet : List String
  data : List (String × JVal)

/-- The body of the `for field_name in fields_set` loop of
`_deep_merge_extraction`: `new_val = new_data.get(field_name)`,
`curr_val = result.get(field_name)`; a non-`None` new value is adopted when
the current value is `None`/absent, otherwise the values are merged with
`_merge_nested_value`. -/
def deepMergeField (data res : List (String × JVal)) (f : String) :
    List (String × JVal) :=
  let newVal := pyGet data f
  let currVal := pyGet res f
  if currVal.isNull then
    if !newVal.isNull then dictSet res f newVal else res
  else
    dictSet res f (mergeNestedValue currVal newVal)

/-- Source: `_deep_merge_extraction(current, new_result)` in
`src/extraction-job/pdf_extraction.py`: start from a copy of `current` and
fold the field loop over the explicitly-set fields of the partial. -/
def deepMergeExtraction (current : List (String × JVal)) (p : PartialResult) :
    List (String × JVal) :=
  p.fieldsSet.foldl (deepMergeField p.data) current

/-!  PageSplitter: `split_pdf_to_chunks` (`pdf_extraction.py`). -/

/-- Python `range(start, stop, step)` for a positive step. -/
def pyRange (start stop step : Nat) : List Nat :=
  if 0 < step ∧ start < stop then start :: pyRange (start + step) stop step else []
termination_by stop - start
decreasing_by omega

/-- Errors raised by the pipeline, named after the raise sites in the source
(`ValueError` messages and custom exception classes). -/
inductive PipelineError where
  | invalidDocument : PipelineError
  | noChunksCreated : PipelineError
  | allChunksFailed : PipelineError
  deriving DecidableEq, Repr

/-- Source: the page-range arithmetic of `split_pdf_to_chunks(pdf_path,
chunk_size)` in `src/extraction-job/pdf_extraction.py`: raise on a PDF with
zero pages, otherwise `for start_idx in range(0, total_pages, chunk_size)`
emit the 1-indexed page range `(start_idx + 1, min(start_idx + chunk_size,
total_pages))`.  File I/O (chunk files on disk) is elided; the returned list
keeps only each chunk's `(start_page, end_page)`. -/
def splitPdfToChunks (totalPages chunkSize : Nat) :
    Except PipelineError (List (Nat × Nat)) :=
  if totalPages = 0 then Except.error PipelineError.invalidDocument
  else Except.ok
    ((pyRange 0 totalPages chunkSize).map
      (fun startIdx => (startIdx + 1, min (startIdx + chunkSize) totalPages)))

/-!  ModelInvoker: `extract_from_pdf_chunk`, `_try_pdf_model_with_retries`
(`pdf_extraction.py`).  The LLM is abstracted as an oracle mapping a model
name and an attempt index to the outcome of `_call_pdf_extraction_llm`:
a parsed result, a `TruncationError`, a `json.JSONDecodeError`, or any
other exception.  Each run also records a trace of the calls made and the
`asyncio.sleep(2 ** attempt)` backoffs taken. -/

/-- Outcome of one `_call_pdf_extraction_llm` invocation. -/
inductive Outcome (R : Type) where
  | success : R → Outcome R
  | truncation : Outcome R
  | parseError : Outcome R
  | otherError : Outcome R
  deriving DecidableEq, Repr

/-- One observable step of the retry/fallback loop: an LLM call on a model at
a given attempt index, or a backoff sleep of the given number of seconds. -/
inductive Event where
  | call : String → Nat → Event
  | sleep : Nat → Event
  deriving DecidableEq, Repr

/-- The body of the `for attempt in range(max_attempts)` loop of
`_try_pdf_model_with_retries`, over the remaining attempt indices:
a success returns, a `TruncationError` is re-raised immediately (modelled as
`Except.error attempt`), any other error sleeps `2 ** attempt` and retries
while `attempt < max_attempts - 1`; `None` (`Except.ok none`) after the
loop. -/
def tryAttemptsLoop (oracle : Nat → Outcome R) (model : String)
    (maxAttempts : Nat) : List Nat → Except Nat (Option R) × List Event
  | [] => (Except.ok none, [])
  | attempt :: rest =>
      match oracle attempt with
      | Outcome.success r => (Except.ok (some r), [Event.call model attempt])
      | Outcome.truncation => (Except.error attempt, [Event.call model attempt])
      | _ =>
          if attempt < maxAttempts - 1 then
            let next := tryAttemptsLoop oracle model maxAttempts rest
            (next.1, Event.call model attempt :: Event.sleep (2 ^ attempt) :: next.2)
          else (Except.ok none, [Event.call model attempt])

/-- Source: `_try_pdf_model_with_retries(messages, model, chunk_number,
max_attempts=3)` in `src/extraction-job/pdf_extraction.py`: the retry loop
run over `range(max_attempts)`. -/
def tryAttempts (oracle : Nat → Outcome R) (model : String)
    (maxAttempts : Nat) : Except Nat (Option R) × List Event :=
  tryAttemptsLoop oracle model maxAttempts (List.range maxAttempts)

/-- Source: the `for i, model in enumerate(model_chain)` loop of
`extract_from_pdf_chunk`: a parsed result returns at once; a model that
returns `None` after its retries moves to the next model leaving
`last_error` unchanged; a `TruncationError` records itself in `last_error`
and moves to the next model; after the loop `raise last_error or
ValueError(...)` (error payload `none` is the generic `ValueError`). -/
def runChain (oracle : String → Nat → Outcome R) :
    List String → Option (String × Nat) →
    Except (Option (String × Nat)) R × List Event
  | [], lastError => (Except.error lastError, [])
  | model :: rest, lastError =>
      match tryAttempts (oracle model) model 3 with
      | (Except.ok (some r), tr) => (Except.ok r, tr)
      | (Except.ok none, tr) =>
          let next := runChain oracle rest lastError
          (next.1, tr ++ next.2)
      | (Except.error attempt, tr) =>
          let next := runChain oracle rest (some (model, attempt))
          (next.1, tr ++ next.2)

/-- Failure of one whole chunk invocation. -/
inductive InvokeError where
  | configError : InvokeError
  | allModelsExhausted : Option (String × Nat) → InvokeError
  deriving DecidableEq, Repr

/-- Source: the model-chain construction of `extract_from_pdf_chunk`
(`pdf_extraction.py`): fold over the three configured candidates, appending
each model that is truthy (non-empty) and not already seen. -/
def buildModelChain (candidates : List String) : List String :=
  candidates.foldl
    (fun chain model =>
      if model ≠ "" ∧ model ∉ chain then chain ++ [model] else chain)
    []

/-- Source: `extract_from_pdf_chunk` (`pdf_extraction.py`), from the chain
construction on: build the model chain from the configured candidates, raise
`ValueError("No extraction models configured")` on an empty chain, otherwise
run the fallback loop. -/
def extractFromPdfChunk (oracle : String → Nat → Outcome R)
    (candidates : List String) : Except InvokeError R × List Event :=
  let modelChain := buildModelChain candidates
  if modelChain.isEmpty then (Except.error InvokeError.configError, [])
  else
    match runChain oracle modelChain none with
    | (Except.ok r, tr) => (Except.ok r, tr)
    | (Except.error lastError, tr) =>
        (Except.error (InvokeError.allModelsExhausted lastError), tr)

/-- Modelled from the spec (§4.2): "a configured ordered list of candidate
models (primary + fallbacks, duplicates removed preserving first
occurrence)" — keep the first occurrence of each identifier, preserving
order.  Used only to compare `buildModelChain` against the spec's words. -/
def dedupFirst : List String → List String
  | [] => []
  | m :: rest => m :: dedupFirst (rest.filter (fun m2 => m2 ≠ m))
termination_by l => l.length
decreasing_by simpa using Nat.lt_succ_of_le (List.length_filter_le _ rest)

/-- What `last_error` holds after the whole chain has run: the last recorded
`TruncationError` (model name and attempt index), if any model truncated. -/
def lastTruncation (oracle : String → Nat → Outcome R) :
    List String → Option (String × Nat) → Option (String × Nat)
  | [], lastError => lastError
  | model :: rest, lastError =>
      match (tryAttempts (oracle model) model 3).1 with
      | Except.error attempt => lastTruncation oracle rest (some (model, attempt))
      | _ => lastTruncation oracle rest lastError

/-- Holds when `_try_pdf_model_with_retries` did not produce a parsed
result for this model: it either returned `None` or raised truncation. -/
def isNoSuccess : Except Nat (Option R) → Bool
  | Except.ok (some _) => false
  | _ => true

/-- The expected trace of the failed attempts `0, …, a-1` of one model: each
a call followed by its backoff sleep of `2 ** attempt` seconds. -/
def backoffTrace (model : String) : Nat → List Event
  | 0 => []
  | a + 1 => backoffTrace model a ++ [Event.call model a, Event.sleep (2 ^ a)]

/-- The fallback scenario of the spec's §8: the first model always
truncates, the second always fails to parse, the third returns a parsed
result. -/
def fallbackScenarioOracle : String → Nat → Outcome Nat := fun model _ =>
  if model = "m1" then Outcome.truncation
  else if model = "m2" then Outcome.parseError
  else Outcome.success 42

/-- An oracle whose every model truncates on its first attempt. -/
def alwaysTruncateOracle : String → Nat → Outcome Nat := fun _ _ =>
  Outcome.truncation

/-!  PipelineController: the chunk loop of `process_document_pdf_extraction`
(`pdf_extraction.py`).  Each chunk's invocation is abstracted as an
`Except E PartialResult`: either the `ExtractionResult` it returned, or the
exception it raised. -/

/-- The `.ok` payloads of a list of chunk invocations, in chunk order. -/
def okResults : List (Except E PartialResult) → List PartialResult
  | [] => []
  | Except.ok r :: rest => r :: okResults rest
  | Except.error _ :: rest => okResults rest

/-- Source: steps 1–2 of `process_document_pdf_extraction`
(`pdf_extraction.py`): fail when no chunks were created; then fold the chunk
results in ascending chunk order, merging each successful chunk into the
accumulator (started empty) and counting successes, swallowing any exception
and continuing; fail with `All ... chunks failed` when zero chunks
succeeded, otherwise return the accumulator. -/
def processChunkStep (st : List (String × JVal) × Nat)
    (cr : Except E PartialResult) : List (String × JVal) × Nat :=
  match cr with
  | Except.ok result => (deepMergeExtraction st.1 result, st.2 + 1)
  | Except.error _ => st

/-- The `(current_extraction, successful_chunks)` state after folding the
chunk loop over the chunk results. -/
def processDocumentChunks (chunkResults : List (Except E PartialResult)) :
    Except PipelineError (List (String × JVal)) :=
  if chunkResults.length = 0 then Except.error PipelineError.noChunksCreated
  else
    let final := chunkResults.foldl processChunkStep ([], 0)
    if final.2 = 0 then Except.error PipelineError.allChunksFailed
    else Except.ok final.1

/-!  Persistence: `database.insert_extraction` and the failure-record path of
`job.process_single_pdf`.  The `llm_extractions` table is a list of rows;
`uuid4()` is abstracted as a caller-supplied fresh id. -/

/-- One row of the `llm_extractions` table, with the columns written by
`insert_extraction` (embeddings kept as their pgvector string form). -/
structure DbRow where
  id : Nat
  extractionId : Option String
  extractionResult : Option JVal
  confidence : Option JVal
  summaryId : Option String
  summaryEn : Option String
  extractionEmbedding : Option String
  summaryEmbedding : Option String
  status : String
  errorMessage : Option String
  sourceFile : Option String

/-- Python truthiness of an `Option String` (`None` and `""` are falsy). -/
def strTruthy : Option String → Bool
  | none => false
  | some s => !(s = "")

/-- Source: `insert_extraction(...)` in `src/extraction-job/database.py`:
look up an existing row by `extraction_id` (only when the id is truthy);
update it in place if found (COALESCE semantics: non-null arguments
overwrite, except `status` and `error_message` which are always written),
otherwise insert a new row under a fresh id.  Returns the new table and the
id of the affected row. -/
def insertExtraction (db : List DbRow) (freshId : Nat)
    (extractionId : Option String) (extractionResult : Option JVal)
    (confidence : Option JVal) (summaryId : Option String)
    (summaryEn : Option String) (extractionEmbedding : Option String)
    (summaryEmbedding : Option String) (status : String)
    (errorMessage : Option String) (sourceFile : Option String) :
    List DbRow × Nat :=
  let existing :=
    if strTruthy extractionId then
      db.find? (fun r => r.extractionId == extractionId)
    else none
  match existing with
  | some row =>
      (db.map (fun r =>
        if r.id = row.id then
          { r with
            extractionResult := extractionResult.orElse (fun _ => r.extractionResult)
            confidence := confidence.orElse (fun _ => r.confidence)
            summaryId := summaryId.orElse (fun _ => r.summaryId)
            summaryEn := summaryEn.orElse (fun _ => r.summaryEn)
            extractionEmbedding :=
              extractionEmbedding.orElse (fun _ => r.extractionEmbedding)
            summaryEmbedding := summaryEmbedding.orElse (fun _ => r.summaryEmbedding)
            status := status
            errorMessage := errorMessage
            sourceFile := sourceFile.orElse (fun _ => r.sourceFile) }
        else r), row.id)
  | none =>
      (db ++ [{ id := freshId
                extractionId := extractionId
                extractionResult := extractionResult
                confidence := confidence
                summaryId := summaryId
                summaryEn := summaryEn
                extractionEmbedding := extractionEmbedding
                summaryEmbedding := summaryEmbedding
                status := status
                errorMessage := errorMessage
                sourceFile := sourceFile }], freshId)

/-- Source: the `except Exception` branch of `process_single_pdf` in
`src/extraction-job/job.py`: when a document's run fails with error message
`errMsg` and database storage is enabled (`enable_database_storage` and a
truthy `database_url`), call `insert_extraction` with `extraction_id=None`,
`status=ExtractionStatus.FAILED` (`"failed"`), `error_message=str(e)` and
`source_file=file_name`; otherwise leave the table unchanged. -/
def storeFailureRecord (db : List DbRow) (freshId : Nat)
    (enableDatabaseStorage : Bool) (databaseUrl : Option String)
    (fileName errMsg : String) : List DbRow :=
  if enableDatabaseStorage && strTruthy databaseUrl then
    (insertExtraction db freshId none none none none none none none
      "failed" (some errMsg) (some fileName)).1
  else db

/-!  Heap-based embedding of the merge, for the purity contract.  Python
dicts are mutable objects: `HVal.ref a` points at address `a` of a `Heap`,
and `curr_val.copy()` / `result[key] = v` become `allocDict` / `setField`.
Lists and scalars are immutable in the source's merge (lists are returned,
never mutated in place), so they stay structural. -/

/-- A runtime value whose dicts live in the heap. -/
inductive HVal where
  | null : HVal
  | str : String → HVal
  | num : Int → HVal
  | bool : Bool → HVal
  | arr : List HVal → HVal
  | ref : Nat → HVal

/-- Python `x is None` for heap values. -/
def HVal.isNull : HVal → Bool
  | HVal.null => true
  | _ => false

/-- A heap of dict objects: contents per address, plus the next fresh
address. -/
structure Heap where
  mem : Nat → Option (List (String × HVal))
  next : Nat

/-- A well-formed heap has nothing allocated at or beyond `next`. -/
def Heap.WF (h : Heap) : Prop :=
  ∀ a, h.next ≤ a → h.mem a = none

/-- Allocate a new dict with the given entries (Python dict display or
`d.copy()`), returning the address. -/
def Heap.allocDict (h : Heap) (entries : List (String × HVal)) : Heap × Nat :=
  ({ mem := fun a => if a = h.next then some entries else h.mem a
     next := h.next + 1 }, h.next)

/-- Python `d[k] = v` on the dict object at address `a` (no-op on a non-dict
address, which the merge never produces). -/
def Heap.setField (h : Heap) (a : Nat) (k : String) (v : HVal) : Heap :=
  { h with mem := fun a2 =>
      if a2 = a then (h.mem a2).map (fun entries => dictSet entries k v)
      else h.mem a2 }

/-- The entries of the dict at address `a` (`[]` on a dangling address). -/
def Heap.entries (h : Heap) (a : Nat) : List (String × HVal) :=
  (h.mem a).getD []

/-- Python `d.get(k)` over heap values. -/
def hGet (entries : List (String × HVal)) (k : String) : HVal :=
  (dictGet entries k).getD HVal.null

/-- Whether a heap value is a dict (`isinstance(x, dict)`). -/
def HVal.isDict : HVal → Bool
  | HVal.ref _ => true
  | _ => false

mutual

/-- Heap-level `_merge_nested_value(curr_val, new_val)`: the same branches as
`mergeNestedValue`, but the dict–dict branch copies the current dict into a
fresh object and mutates only that copy.  `fuel` bounds the recursion depth
through the heap (any value suffices for the frame property; the merge never
writes to a pre-existing address at any fuel). -/
def hMergeNestedValue (fuel : Nat) (h : Heap) (currVal newVal : HVal) :
    Heap × HVal :=
  match fuel with
  | 0 => (h, newVal)
  | fuel + 1 =>
    match newVal, currVal with
    | HVal.ref na, HVal.ref ca =>
        let copied := h.allocDict (h.entries ca)
        (hMergeObjItems fuel copied.1 ca copied.2 (copied.1.entries na), HVal.ref copied.2)
    | HVal.ref _, _ => (h, newVal)
    | HVal.arr xs, _ =>
        if !xs.isEmpty then (h, newVal)
        else match currVal with
          | HVal.arr cs => if !cs.isEmpty then (h, currVal) else (h, newVal)
          | _ => (h, newVal)
    | HVal.null, _ => (h, currVal)
    | _, _ => (h, newVal)

/-- Heap-level `for key, val in new_val.items()` loop of
`_merge_nested_value`: `ca` is the current dict (read anew each iteration),
`ra` the freshly allocated result dict being mutated. -/
def hMergeObjItems (fuel : Nat) (h : Heap) (ca ra : Nat) :
    List (String × HVal) → Heap
  | [] => h
  | (k, v) :: rest =>
      let cf := h.entries ca
      if dictMem cf k then
        let merged := hMergeNestedValue fuel h (hGet cf k) v
        hMergeObjItems fuel (merged.1.setField ra k merged.2) ca ra rest
      else if !v.isNull then
        hMergeObjItems fuel (h.setField ra k v) ca ra rest
      else
        hMergeObjItems fuel h ca ra rest

end

/-- Heap-level field loop of `_deep_merge_extraction`: `na` holds the
partial's `model_dump()` data, `ra` the result dict (`current.copy()`),
which is both read (`result.get(field_name)`) and written. -/
def hDeepMergeFields (fuel : Nat) (h : Heap) (na ra : Nat) :
    List String → Heap
  | [] => h
  | f :: rest =>
      let newVal := hGet (h.entries na) f
      let currVal := hGet (h.entries ra) f
      if currVal.isNull then
        if !newVal.isNull then hDeepMergeFields fuel (h.setField ra f newVal) na ra rest
        else hDeepMergeFields fuel h na ra rest
      else
        let merged := hMergeNestedValue fuel h currVal newVal
        hDeepMergeFields fuel (merged.1.setField ra f merged.2) na ra rest

/-- Heap-level `_deep_merge_extraction(current, new_result)`: copy the
accumulator dict at `ca` into a fresh result dict and run the field loop
against the partial's dumped data at `na`. -/
def hDeepMerge (fuel : Nat) (h : Heap) (ca na : Nat) (fieldsSet : List String) :
    Heap × Nat :=
  let copied := h.allocDict (h.entries ca)
  (hDeepMergeFields fuel copied.1 na copied.2 fieldsSet, copied.2)

/-- A concrete two-object heap: the accumulator dict at address 0 and the
partial's dumped data at address 1. -/
def exampleMergeHeap : Heap :=
  { mem := fun a =>
      [some [("name", HVal.str "Budi")],
       some [("name", HVal.null)]].getD a none
    next := 2 }

/-!  Lemmas about association-list dicts. -/

theorem dictGet_cons (k' : String) (v' : α) (rest : List (String × α)) (k : String) :
    dictGet ((k', v') :: rest) k = if k' = k then some v' else dictGet rest k := by
  by_cases h : k' = k
  · simp [dictGet, List.find?, h]
  · have hb : (k' == k) = false := beq_eq_false_iff_ne.mpr h
    simp [dictGet, List.find?, hb, h]

theorem dictGet_dictSet_self (d : List (String × α)) (k : String) (v : α) :
    dictGet (dictSet d k v) k = some v := by
  induction d with
  | nil => simp [dictSet, dictGet_cons]
  | cons p rest ih =>
    obtain ⟨k', v'⟩ := p
    by_cases h : k' = k
    · simp [dictSet, h, dictGet_cons]
    · simp [dictSet, h, dictGet_cons, ih]

theorem dictGet_dictSet_ne (d : List (String × α)) (k k' : String) (v : α)
    (h : k ≠ k') : dictGet (dictSet d k v) k' = dictGet d k' := by
  induction d with
  | nil => simp [dictSet, dictGet_cons, h]
  | cons p rest ih =>
    obtain ⟨k0, v0⟩ := p
    by_cases h0 : k0 = k
    · subst h0
      simp [dictSet, dictGet_cons, h]
    · simp [dictSet, h0, dictGet_cons, ih]

theorem dictMem_eq_true_iff (d : List (String × α)) (k : String) :
    dictMem d k = true ↔ (dictGet d k).isSome := by
  induction d with
  | nil => simp [dictMem, dictGet]
  | cons p rest ih =>
    obtain ⟨k0, v0⟩ := p
    by_cases h : k0 = k
    · simp [dictMem, dictGet_cons, h]
    · simpa [dictMem, dictGet_cons, h] using ih

theorem dictMem_eq_false_iff (d : List (String × α)) (k : String) :
    dictMem d k = false ↔ dictGet d k = none := by
  rw [← Bool.not_eq_true, dictMem_eq_true_iff, Option.isSome_iff_ne_none]
  tauto

theorem pyGet_eq_null_of_dictGet_none (d : List (String × JVal)) (k : String)
    (h : dictGet d k = none) : pyGet d k = JVal.null := by
  simp [pyGet, h]

theorem dictGet_eq_some_pyGet (d : List (String × JVal)) (k : String)
    (h : ¬pyGet d k = JVal.null) : dictGet d k = some (pyGet d k) := by
  rcases hg : dictGet d k with _ | v
  · exact absurd (pyGet_eq_null_of_dictGet_none d k hg) h
  · simp [pyGet, hg]

/-!  Lemmas about `mergeNestedValue` (`_merge_nested_value`). -/

theorem mergeNestedValue_null_new (currVal : JVal) :
    mergeNestedValue currVal JVal.null = currVal := by
  cases currVal <;> rfl

theorem mergeNestedValue_scalar_new (currVal newVal : JVal)
    (hs : newVal.isScalar = true) : mergeNestedValue currVal newVal = newVal := by
  cases newVal <;> simp_all [JVal.isScalar] <;> cases currVal <;> rfl

theorem mergeNestedValue_arr_nonempty (currVal : JVal) (xs : List JVal)
    (hxs : xs ≠ []) : mergeNestedValue currVal (JVal.arr xs) = JVal.arr xs := by
  cases currVal <;> simp [mergeNestedValue, List.isEmpty_iff, hxs]

theorem mergeNestedValue_arr_empty_keeps (cs : List JVal) (hcs : cs ≠ []) :
    mergeNestedValue (JVal.arr cs) (JVal.arr []) = JVal.arr cs := by
  simp [mergeNestedValue, List.isEmpty_iff, hcs]

theorem mergeNestedValue_obj_obj (cf nf : List (String × JVal)) :
    mergeNestedValue (JVal.obj cf) (JVal.obj nf) = JVal.obj (mergeObjItems cf cf nf) := by
  rfl

/-- The nested-object loop never touches a key absent from the new dict. -/
theorem mergeObjItems_get_not_mem (cf : List (String × JVal))
    (nf : List (String × JVal)) (res : List (String × JVal)) (k : String)
    (hk : k ∉ nf.map Prod.fst) :
    dictGet (mergeObjItems cf res nf) k = dictGet res k := by
  induction nf generalizing res with
  | nil => rfl
  | cons p rest ih =>
    obtain ⟨k0, v0⟩ := p
    simp only [List.map_cons, List.mem_cons, not_or] at hk
    obtain ⟨hk0, hk'⟩ := hk
    have hne : k0 ≠ k := fun h => hk0 h.symm
    by_cases hmem : dictMem cf k0
    · have h1 := ih (dictSet res k0 (mergeNestedValue (pyGet cf k0) v0)) hk'
      rw [dictGet_dictSet_ne _ _ _ _ hne] at h1
      simp [mergeObjItems, hmem, h1]
    · cases hv : v0.isNull
      · have h1 := ih (dictSet res k0 v0) hk'
        rw [dictGet_dictSet_ne _ _ _ _ hne] at h1
        simp [mergeObjItems, hmem, hv, h1]
      · have h1 := ih res hk'
        simp [mergeObjItems, hmem, hv, h1]

/-- Value of the nested-object loop at a key of the new dict (new dict keys
unique, as Python dict keys are): keys also in the current dict are merged
recursively, new non-`None` values are added, a `None` value for a fresh
key is skipped. -/
theorem mergeObjItems_get_mem (cf : List (String × JVal))
    (nf : List (String × JVal)) (res : List (String × JVal)) (k : String)
    (v : JVal) (hnd : (nf.map Prod.fst).Nodup) (hkv : (k, v) ∈ nf) :
    dictGet (mergeObjItems cf res nf) k =
      if dictMem cf k then some (mergeNestedValue (pyGet cf k) v)
      else if !v.isNull then some v
      else dictGet res k := by
  induction nf generalizing res with
  | nil => cases hkv
  | cons p rest ih =>
    obtain ⟨k0, v0⟩ := p
    simp only [List.map_cons, List.nodup_cons] at hnd
    obtain ⟨hk0nr, hnd'⟩ := hnd
    by_cases hk0 : k0 = k
    · subst hk0
      have hv0 : v0 = v := by
        rcases List.mem_cons.mp hkv with h | h
        · exact ((Prod.ext_iff.mp h).2).symm
        · exact absurd (List.mem_map.mpr ⟨(k0, v), h, rfl⟩) hk0nr
      subst hv0
      by_cases hmem : dictMem cf k0
      · have h1 : dictGet (mergeObjItems cf
            (dictSet res k0 (mergeNestedValue (pyGet cf k0) v0)) rest) k0 =
            some (mergeNestedValue (pyGet cf k0) v0) := by
          rw [mergeObjItems_get_not_mem _ _ _ _ hk0nr, dictGet_dictSet_self]
        simp [mergeObjItems, hmem, h1]
      · cases hv : v0.isNull
        · have h1 : dictGet (mergeObjItems cf (dictSet res k0 v0) rest) k0 =
              some v0 := by
            rw [mergeObjItems_get_not_mem _ _ _ _ hk0nr, dictGet_dictSet_self]
          simp [mergeObjItems, hmem, hv, h1]
        · have h1 := mergeObjItems_get_not_mem cf rest res k0 hk0nr
          simp [mergeObjItems, hmem, hv, h1]
    · have hkrest : (k, v) ∈ rest := by
        rcases List.mem_cons.mp hkv with h | h
        · exact absurd ((Prod.ext_iff.mp h).1.symm) hk0
        · exact h
      have hne : k0 ≠ k := hk0
      by_cases hmem : dictMem cf k0
      · have h1 := ih (dictSet res k0 (mergeNestedValue (pyGet cf k0) v0)) hnd' hkrest
        rw [dictGet_dictSet_ne _ _ _ _ hne] at h1
        simp [mergeObjItems, hmem, h1]
      · cases hv : v0.isNull
        · have h1 := ih (dictSet res k0 v0) hnd' hkrest
          rw [dictGet_dictSet_ne _ _ _ _ hne] at h1
          simp [mergeObjItems, hmem, hv, h1]
        · have h1 := ih res hnd' hkrest
          simp [mergeObjItems, hmem, hv, h1]

theorem JVal.isNull_iff (v : JVal) : v.isNull = true ↔ v = JVal.null := by
  cases v <;> simp [JVal.isNull]

theorem JVal.isNull_eq_false_of_isScalar (v : JVal) (h : v.isScalar = true) :
    v.isNull = false := by
  cases v <;> simp_all [JVal.isScalar, JVal.isNull]

/-!  Lemmas about the field loop of `_deep_merge_extraction`. -/

theorem dictGet_deepMergeField_ne (data res : List (String × JVal))
    (g f : String) (h : g ≠ f) :
    dictGet (deepMergeField data res g) f = dictGet res f := by
  by_cases h1 : (pyGet res g).isNull = true <;>
    by_cases h2 : (pyGet data g).isNull = true <;>
      simp [deepMergeField, h1, h2, dictGet_dictSet_ne _ _ _ _ h]

/-- A field not in `model_fields_set` is never touched by the field loop. -/
theorem deepMergeFold_get_not_mem (data : List (String × JVal)) (fs : List String)
    (res : List (String × JVal)) (f : String) (hf : f ∉ fs) :
    dictGet (fs.foldl (deepMergeField data) res) f = dictGet res f := by
  induction fs generalizing res with
  | nil => rfl
  | cons g rest ih =>
    simp only [List.mem_cons, not_or] at hf
    obtain ⟨hgf, hf'⟩ := hf
    rw [List.foldl_cons, ih _ hf',
      dictGet_deepMergeField_ne _ _ _ _ (fun h => hgf h.symm)]

/-- Value of the field loop at an explicitly-set field: a non-`None` new
value is adopted when the current value is `None`/absent, a `None` new value
leaves the entry as it was, and otherwise the values are merged with
`_merge_nested_value`. -/
theorem deepMergeFold_get_mem (data : List (String × JVal)) (fs : List String)
    (res : List (String × JVal)) (f : String) (hnd : fs.Nodup) (hf : f ∈ fs) :
    dictGet (fs.foldl (deepMergeField data) res) f =
      if (pyGet res f).isNull then
        if !(pyGet data f).isNull then some (pyGet data f) else dictGet res f
      else some (mergeNestedValue (pyGet res f) (pyGet data f)) := by
  induction fs generalizing res with
  | nil => cases hf
  | cons g rest ih =>
    simp only [List.nodup_cons] at hnd
    obtain ⟨hgnr, hnd'⟩ := hnd
    by_cases hgf : g = f
    · subst hgf
      rw [List.foldl_cons, deepMergeFold_get_not_mem _ _ _ _ hgnr]
      by_cases h1 : (pyGet res g).isNull = true
      · by_cases h2 : (pyGet data g).isNull = true
        · simp [deepMergeField, h1, h2]
        · simp [deepMergeField, h1, h2, dictGet_dictSet_self]
      · simp [deepMergeField, h1, dictGet_dictSet_self]
    · have hf' : f ∈ rest := by
        rcases List.mem_cons.mp hf with h | h
        · exact absurd h.symm hgf
        · exact h
      have heq := dictGet_deepMergeField_ne data res g f hgf
      have heqPy : pyGet (deepMergeField data res g) f = pyGet res f := by
        simp [pyGet, heq]
      rw [List.foldl_cons, ih _ hnd' hf', heq, heqPy]

/-!  Claim theorems for the merge (C1–C4). -/

/-- C2: merging a `PartialResult` with no explicitly-present fields is the
identity on the accumulator, and any field not explicitly present in the
partial keeps exactly the accumulator's entry (absent stays absent, any
stored value — `null` or not — stays as is). -/
theorem deepMerge_absent_identity (current : List (String × JVal))
    (p : PartialResult) :
    (p.fieldsSet = [] → deepMergeExtraction current p = current) ∧
    (∀ f, f ∉ p.fieldsSet →
      dictGet (deepMergeExtraction current p) f = dictGet current f) := by
  constructor
  · intro h
    simp [deepMergeExtraction, h]
  · intro f hf
    exact deepMergeFold_get_not_mem _ _ _ _ hf

/-- Witness for C2 at a concrete accumulator: an empty partial is the
identity, and a partial touching only `verdict` leaves `court` unchanged. -/
theorem deepMerge_absent_identity_witness :
    deepMergeExtraction [("court", JVal.str "PN Jakarta")]
      { fieldsSet := [], data := [] } = [("court", JVal.str "PN Jakarta")] ∧
    dictGet (deepMergeExtraction [("court", JVal.str "PN Jakarta")]
      { fieldsSet := ["verdict"], data := [("verdict", JVal.null)] }) "court" =
      dictGet [("court", JVal.str "PN Jakarta")] "court" :=
  ⟨(deepMerge_absent_identity [("court", JVal.str "PN Jakarta")]
      { fieldsSet := [], data := [] }).1 rfl,
   (deepMerge_absent_identity [("court", JVal.str "PN Jakarta")]
      { fieldsSet := ["verdict"], data := [("verdict", JVal.null)] }).2
      "court" (by simp)⟩

/-- C3: for a top-level field explicitly present in the partial: a non-null
scalar new value overwrites; a null new value preserves an existing non-null
accumulator value unchanged; when the accumulator has no entry for the
field, a null new value leaves the field absent and a non-null new value is
adopted verbatim. -/
theorem deepMerge_scalar_null_semantics (current : List (String × JVal))
    (p : PartialResult) (f : String) (hnd : p.fieldsSet.Nodup)
    (hf : f ∈ p.fieldsSet) :
    ((pyGet p.data f).isScalar = true →
      dictGet (deepMergeExtraction current p) f = some (pyGet p.data f)) ∧
    (pyGet p.data f = JVal.null → ¬pyGet current f = JVal.null →
      dictGet (deepMergeExtraction current p) f = some (pyGet current f)) ∧
    (dictGet current f = none → pyGet p.data f = JVal.null →
      dictGet (deepMergeExtraction current p) f = none) ∧
    (dictGet current f = none → ¬pyGet p.data f = JVal.null →
      dictGet (deepMergeExtraction current p) f = some (pyGet p.data f)) := by
  have hfold := deepMergeFold_get_mem p.data p.fieldsSet current f hnd hf
  rw [deepMergeExtraction] at *
  refine ⟨?_, ?_, ?_, ?_⟩
  · intro hs
    have hnn := JVal.isNull_eq_false_of_isScalar _ hs
    by_cases h1 : (pyGet current f).isNull = true
    · rw [hfold, if_pos h1, if_pos (by simp [hnn])]
    · rw [hfold, if_neg h1,
        mergeNestedValue_scalar_new (pyGet current f) (pyGet p.data f) hs]
  · intro hnull hcur
    have h1 : (pyGet current f).isNull = false := by
      rw [← Bool.not_eq_true, JVal.isNull_iff]
      exact hcur
    rw [hfold, if_neg (by simp [h1]), hnull, mergeNestedValue_null_new]
  · intro habs hnull
    have h1 : (pyGet current f).isNull = true :=
      (JVal.isNull_iff _).mpr (pyGet_eq_null_of_dictGet_none _ _ habs)
    rw [hfold, if_pos h1, hnull, if_neg (by simp [JVal.isNull]), habs]
  · intro habs hnn
    have h1 : (pyGet current f).isNull = true :=
      (JVal.isNull_iff _).mpr (pyGet_eq_null_of_dictGet_none _ _ habs)
    have h2 : (pyGet p.data f).isNull = false := by
      rw [← Bool.not_eq_true, JVal.isNull_iff]
      exact hnn
    rw [hfold, if_pos h1, if_pos (by simp [h2])]

/-- Witness for C3 at concrete inputs: a non-null scalar overwrites; a null
new value preserves; a null new value for an absent field stays absent; a
non-null value for an absent field is adopted. -/
theorem deepMerge_scalar_null_semantics_witness :
    dictGet (deepMergeExtraction [("judge", JVal.str "Sari")]
      { fieldsSet := ["judge"], data := [("judge", JVal.str "Budi")] }) "judge" =
      some (JVal.str "Budi") ∧
    dictGet (deepMergeExtraction [("judge", JVal.str "Sari")]
      { fieldsSet := ["judge"], data := [("judge", JVal.null)] }) "judge" =
      some (JVal.str "Sari") ∧
    dictGet (deepMergeExtraction []
      { fieldsSet := ["judge"], data := [("judge", JVal.null)] }) "judge" = none ∧
    dictGet (deepMergeExtraction []
      { fieldsSet := ["judge"], data := [("judge", JVal.num 7)] }) "judge" =
      some (JVal.num 7) :=
  ⟨(deepMerge_scalar_null_semantics [("judge", JVal.str "Sari")]
      { fieldsSet := ["judge"], data := [("judge", JVal.str "Budi")] } "judge"
      (by simp) (by simp)).1 rfl,
   (deepMerge_scalar_null_semantics [("judge", JVal.str "Sari")]
      { fieldsSet := ["judge"], data := [("judge", JVal.null)] } "judge"
      (by simp) (by simp)).2.1 rfl (by intro h; cases h),
   (deepMerge_scalar_null_semantics []
      { fieldsSet := ["judge"], data := [("judge", JVal.null)] } "judge"
      (by simp) (by simp)).2.2.1 rfl rfl,
   (deepMerge_scalar_null_semantics []
      { fieldsSet := ["judge"], data := [("judge", JVal.num 7)] } "judge"
      (by simp) (by simp)).2.2.2 rfl (by intro h; cases h)⟩

/-- C4: for a field explicitly present in the partial whose new value is a
list: a non-empty new list replaces the accumulator's value wholesale; an
empty new list keeps a non-empty existing list; concretely, old `[a, b]`
merged with new `[c]` yields `[c]`. -/
theorem deepMerge_list_replacement (current : List (String × JVal))
    (p : PartialResult) (f : String) (xs : List JVal)
    (hnd : p.fieldsSet.Nodup) (hf : f ∈ p.fieldsSet)
    (hx : pyGet p.data f = JVal.arr xs) :
    (xs ≠ [] → dictGet (deepMergeExtraction current p) f = some (JVal.arr xs)) ∧
    (xs = [] → ∀ cs, pyGet current f = JVal.arr cs → cs ≠ [] →
      dictGet (deepMergeExtraction current p) f = some (JVal.arr cs)) ∧
    dictGet (deepMergeExtraction
      [("evidence", JVal.arr [JVal.str "a", JVal.str "b"])]
      { fieldsSet := ["evidence"],
        data := [("evidence", JVal.arr [JVal.str "c"])] }) "evidence" =
      some (JVal.arr [JVal.str "c"]) := by
  have hfold := deepMergeFold_get_mem p.data p.fieldsSet current f hnd hf
  rw [deepMergeExtraction] at *
  refine ⟨?_, ?_, rfl⟩
  · intro hne
    by_cases h1 : (pyGet current f).isNull = true
    · rw [hfold, if_pos h1, hx, if_pos (by simp [JVal.isNull])]
    · rw [hfold, if_neg h1, hx, mergeNestedValue_arr_nonempty _ _ hne]
  · intro hempty cs hcs hcsne
    have h1 : (pyGet current f).isNull = false := by
      rw [hcs]
      rfl
    rw [hfold, if_neg (by simp [h1]), hx, hcs, hempty,
      mergeNestedValue_arr_empty_keeps _ hcsne]

/-- Witness for C4 at concrete inputs: non-empty replacement and empty-list
preservation. -/
theorem deepMerge_list_replacement_witness :
    dictGet (deepMergeExtraction [("charges", JVal.arr [JVal.str "a", JVal.str "b"])]
      { fieldsSet := ["charges"],
        data := [("charges", JVal.arr [JVal.str "c"])] }) "charges" =
      some (JVal.arr [JVal.str "c"]) ∧
    dictGet (deepMergeExtraction [("charges", JVal.arr [JVal.str "a", JVal.str "b"])]
      { fieldsSet := ["charges"], data := [("charges", JVal.arr [])] }) "charges" =
      some (JVal.arr [JVal.str "a", JVal.str "b"]) :=
  ⟨(deepMerge_list_replacement [("charges", JVal.arr [JVal.str "a", JVal.str "b"])]
      { fieldsSet := ["charges"], data := [("charges", JVal.arr [JVal.str "c"])] }
      "charges" [JVal.str "c"] (by simp) (by simp) rfl).1 (by simp),
   (deepMerge_list_replacement [("charges", JVal.arr [JVal.str "a", JVal.str "b"])]
      { fieldsSet := ["charges"], data := [("charges", JVal.arr [])] }
      "charges" [] (by simp) (by simp) rfl).2.1 rfl
      [JVal.str "a", JVal.str "b"] rfl (by simp)⟩

/-- C1 (counterexample): at a concrete input where both the accumulator's
and the partial's value for `defendant` are nested objects and the partial's
sub-key `name` is explicitly null over an existing non-null value, the merge
keeps the old value `"Budi"` — the explicit null does NOT overwrite, contrary
to the claim. -/
theorem deepMerge_nested_null_overwrites_cex :
    dictGet (deepMergeExtraction
      [("defendant", JVal.obj [("name", JVal.str "Budi")])]
      { fieldsSet := ["defendant"],
        data := [("defendant", JVal.obj [("name", JVal.null)])] }) "defendant" =
      some (JVal.obj [("name", JVal.str "Budi")]) ∧
    ¬ JVal.str "Budi" = JVal.null :=
  ⟨rfl, fun h => JVal.noConfusion h⟩

/-- C1 (amended): when both the accumulator's and the partial's value for an
explicitly-present field are nested objects, the merge recurses per sub-key:
a sub-key absent from the new object is untouched; a sub-key present in both
is merged recursively by `_merge_nested_value`, so an explicit null at the
leaf PRESERVES the accumulator's existing non-null value (it does not
overwrite it); a sub-key only in the new object is added when non-null and
skipped when null. -/
theorem deepMerge_nested_null_preserves (current : List (String × JVal))
    (p : PartialResult) (f : String) (cf nf : List (String × JVal))
    (hnd : p.fieldsSet.Nodup) (hf : f ∈ p.fieldsSet)
    (hcur : pyGet current f = JVal.obj cf)
    (hnew : pyGet p.data f = JVal.obj nf)
    (hknd : (nf.map Prod.fst).Nodup) :
    dictGet (deepMergeExtraction current p) f =
      some (JVal.obj (mergeObjItems cf cf nf)) ∧
    (∀ k, k ∉ nf.map Prod.fst →
      dictGet (mergeObjItems cf cf nf) k = dictGet cf k) ∧
    (∀ k v, (k, v) ∈ nf → dictMem cf k →
      dictGet (mergeObjItems cf cf nf) k =
        some (mergeNestedValue (pyGet cf k) v)) ∧
    (∀ k, (k, JVal.null) ∈ nf → dictMem cf k →
      dictGet (mergeObjItems cf cf nf) k = some (pyGet cf k)) ∧
    (∀ k v, (k, v) ∈ nf → dictMem cf k = false →
      dictGet (mergeObjItems cf cf nf) k =
        if !v.isNull then some v else none) := by
  have hfold := deepMergeFold_get_mem p.data p.fieldsSet current f hnd hf
  rw [deepMergeExtraction] at *
  refine ⟨?_, ?_, ?_, ?_, ?_⟩
  · have h1 : (pyGet current f).isNull = false := by
      rw [hcur]
      rfl
    rw [hfold, if_neg (by simp [h1]), hcur, hnew, mergeNestedValue_obj_obj]
  · intro k hk
    exact mergeObjItems_get_not_mem cf nf cf k hk
  · intro k v hkv hmem
    rw [mergeObjItems_get_mem cf nf cf k v hknd hkv, if_pos hmem]
  · intro k hkv hmem
    rw [mergeObjItems_get_mem cf nf cf k JVal.null hknd hkv, if_pos hmem,
      mergeNestedValue_null_new]
  · intro k v hkv hmem
    rw [mergeObjItems_get_mem cf nf cf k v hknd hkv, if_neg (by simp [hmem])]
    cases hv : v.isNull
    · rw [if_pos (by simp [hv]), if_pos (by simp [hv])]
    · rw [if_neg (by simp [hv]), if_neg (by simp [hv]),
        (dictMem_eq_false_iff cf k).mp hmem]

/-- Witness for the amended C1 at a concrete input: the explicit null leaf
preserves `"Budi"`, the absent sub-key `address` is untouched, and the fresh
non-null sub-key `age` is added. -/
theorem deepMerge_nested_null_preserves_witness :
    dictGet (deepMergeExtraction
      [("defendant", JVal.obj [("name", JVal.str "Budi"), ("address", JVal.str "Jakarta")])]
      { fieldsSet := ["defendant"],
        data := [("defendant", JVal.obj [("name", JVal.null), ("age", JVal.num 41)])] })
      "defendant" =
      some (JVal.obj (mergeObjItems
        [("name", JVal.str "Budi"), ("address", JVal.str "Jakarta")]
        [("name", JVal.str "Budi"), ("address", JVal.str "Jakarta")]
        [("name", JVal.null), ("age", JVal.num 41)])) ∧
    dictGet (mergeObjItems
      [("name", JVal.str "Budi"), ("address", JVal.str "Jakarta")]
      [("name", JVal.str "Budi"), ("address", JVal.str "Jakarta")]
      [("name", JVal.null), ("age", JVal.num 41)]) "name" =
      some (JVal.str "Budi") := by
  have h := deepMerge_nested_null_preserves
    [("defendant", JVal.obj [("name", JVal.str "Budi"), ("address", JVal.str "Jakarta")])]
    { fieldsSet := ["defendant"],
      data := [("defendant", JVal.obj [("name", JVal.null), ("age", JVal.num 41)])] }
    "defendant"
    [("name", JVal.str "Budi"), ("address", JVal.str "Jakarta")]
    [("name", JVal.null), ("age", JVal.num 41)]
    (by simp) (by simp) rfl rfl (by simp)
  refine ⟨h.1, ?_⟩
  have h2 := h.2.2.2.1 "name" (by simp) rfl
  simpa [pyGet, dictGet_cons] using h2

/-!  PageSplitter lemmas and claim C7. -/

/-- Python `range(start, stop, step)` enumerated in closed form. -/
theorem pyRange_eq (start stop step : Nat) (hs : 0 < step) :
    pyRange start stop step =
      (List.range ((stop - start + step - 1) / step)).map (fun i => start + i * step) := by
  rw [pyRange]
  by_cases h : start < stop
  · rw [if_pos ⟨hs, h⟩, pyRange_eq (start + step) stop step hs]
    have hn : (stop - start + step - 1) / step =
        ((stop - (start + step) + step - 1) / step) + 1 := by
      rcases le_or_lt stop (start + step) with hle | hlt
      · have h1 : stop - (start + step) = 0 := by omega
        have h2 : (0 + step - 1) / step = 0 := Nat.div_eq_of_lt (by omega)
        have h3 : (stop - start + step - 1) / step = 1 :=
          Nat.div_eq_of_lt_le (by omega) (by omega)
        rw [h3, h1, h2]
      · have h1 : stop - start + step - 1 = (stop - (start + step) + step - 1) + step := by
          omega
        rw [h1, Nat.add_div_right _ hs]
    rw [hn, List.range_succ_eq_map, List.map_cons, List.map_map]
    have hmap : ((fun i => start + i * step) ∘ Nat.succ) = fun i => start + step + i * step := by
      funext i
      simp only [Function.comp, Nat.succ_eq_add_one]
      ring
    rw [hmap]
    simp
  · rw [if_neg (by tauto)]
    have h1 : stop - start = 0 := by omega
    have h2 : (0 + step - 1) / step = 0 := Nat.div_eq_of_lt (by omega)
    rw [h1, h2]
    rfl
termination_by stop - start
decreasing_by omega

/-- The splitter's output in closed form, for a non-empty document. -/
theorem splitPdfToChunks_ok (P k : Nat) (hP : 1 ≤ P) (hk : 0 < k) :
    splitPdfToChunks P k = Except.ok
      ((List.range ((P + k - 1) / k)).map
        (fun i => (i * k + 1, min (i * k + k) P))) := by
  rw [splitPdfToChunks, if_neg (by omega), pyRange_eq 0 P k hk]
  refine congrArg _ ?_
  rw [List.map_map, Nat.sub_zero]
  apply List.map_congr_left
  intro i _
  simp [Function.comp]

/-- C7: for a readable PDF with `P ≥ 1` pages and `chunk_size > 0`, the
splitter yields `⌈P / chunk_size⌉` ordered chunks whose 1-indexed ranges
cover `[1, P]` contiguously with no gaps or overlaps, each spanning at most
`chunk_size` pages with only the last possibly shorter; `P = 25` with
`chunk_size = 10` yields exactly `(1,10), (11,20), (21,25)`; a zero-page
document fails with the invalid-document error. -/
theorem splitPdfToChunks_spec (P k : Nat) (hP : 1 ≤ P) (hk : 0 < k) :
    splitPdfToChunks 0 k = Except.error PipelineError.invalidDocument ∧
    splitPdfToChunks 25 10 = Except.ok [(1, 10), (11, 20), (21, 25)] ∧
    ∃ cs, splitPdfToChunks P k = Except.ok cs ∧
      cs.length = (P + k - 1) / k ∧
      0 < cs.length ∧
      (∀ i (h : i < cs.length), cs[i] = (i * k + 1, min (i * k + k) P)) ∧
      (∀ h0 : 0 < cs.length, (cs[0]).1 = 1) ∧
      (∀ i (h : i + 1 < cs.length), (cs[i + 1]).1 = (cs.get ⟨i, by omega⟩).2 + 1) ∧
      (∀ hl : cs.length - 1 < cs.length, (cs[cs.length - 1]).2 = P) ∧
      (∀ i (h : i < cs.length), (cs[i]).1 ≤ (cs[i]).2 ∧ (cs[i]).2 + 1 - (cs[i]).1 ≤ k) ∧
      (∀ i (h : i + 1 < cs.length), (cs.get ⟨i, by omega⟩).2 + 1 - (cs.get ⟨i, by omega⟩).1 = k) := by
  refine ⟨rfl, by rw [splitPdfToChunks_ok 25 10 (by norm_num) (by norm_num)]; rfl,
    (List.range ((P + k - 1) / k)).map (fun i => (i * k + 1, min (i * k + k) P)),
    splitPdfToChunks_ok P k hP hk, by simp, ?_, ?_, ?_, ?_, ?_, ?_, ?_⟩
  · simp only [List.length_map, List.length_range]
    have h1 : 1 ≤ (P + k - 1) / k := by
      rw [Nat.le_div_iff_mul_le hk]
      omega
    omega
  · intro i h
    simp only [List.length_map, List.length_range] at h
    simp [List.getElem_map, List.getElem_range]
  · intro h0
    simp [List.getElem_map, List.getElem_range]
  · intro i h
    simp only [List.length_map, List.length_range] at h
    simp only [List.get_eq_getElem, List.getElem_map, List.getElem_range]
    have h2 : (i + 2) * k ≤ P + k - 1 := by
      rw [← Nat.le_div_iff_mul_le hk]
      omega
    have h3 : (i + 2) * k = i * k + 2 * k := by ring
    have h4 : (i + 1) * k = i * k + k := by ring
    rw [h4]
    omega
  · intro hl
    simp only [List.length_map, List.length_range] at hl
    simp only [List.length_map, List.length_range, List.getElem_map, List.getElem_range]
    set N := (P + k - 1) / k with hN
    have hN1 : 1 ≤ N := by
      rw [hN, Nat.le_div_iff_mul_le hk]
      omega
    have hlt : P + k - 1 < (N + 1) * k := by
      rw [← Nat.div_lt_iff_lt_mul hk]
      omega
    have h5 : (N + 1) * k = N * k + k := by ring
    have h6 : (N - 1) * k + k = N * k := by
      have h7 : N - 1 + 1 = N := by omega
      rw [← Nat.succ_mul, Nat.succ_eq_add_one, h7]
    omega
  · intro i h
    simp only [List.length_map, List.length_range] at h
    simp only [List.getElem_map, List.getElem_range]
    have h2 : (i + 1) * k ≤ P + k - 1 := by
      rw [← Nat.le_div_iff_mul_le hk]
      omega
    have h3 : (i + 1) * k = i * k + k := by ring
    omega
  · intro i h
    simp only [List.length_map, List.length_range] at h
    simp only [List.get_eq_getElem, List.getElem_map, List.getElem_range]
    have h2 : (i + 2) * k ≤ P + k - 1 := by
      rw [← Nat.le_div_iff_mul_le hk]
      omega
    have h3 : (i + 2) * k = i * k + 2 * k := by ring
    omega

/-- Witness for C7 at `P = 25`, `chunk_size = 10`: the zero-page failure,
the concrete three ranges, and the chunk count 3. -/
theorem splitPdfToChunks_spec_witness :
    splitPdfToChunks 0 10 = Except.error PipelineError.invalidDocument ∧
    splitPdfToChunks 25 10 = Except.ok [(1, 10), (11, 20), (21, 25)] ∧
    ∃ cs, splitPdfToChunks 25 10 = Except.ok cs ∧ cs.length = 3 := by
  have h := splitPdfToChunks_spec 25 10 (by norm_num) (by norm_num)
  refine ⟨h.1, h.2.1, ?_⟩
  obtain ⟨cs, hok, hlen, _⟩ := h.2.2
  exact ⟨cs, hok, by rw [hlen]⟩

/-!  ModelInvoker: chain construction (C9). -/

/-- The chain-construction fold, relative to an arbitrary already-built
prefix: it appends, in order, the not-yet-seen non-empty candidates. -/
theorem buildModelChain_foldl (c : List String) (acc : List String) :
    c.foldl
      (fun chain model =>
        if model ≠ "" ∧ model ∉ chain then chain ++ [model] else chain)
      acc =
    acc ++ dedupFirst ((c.filter (fun m => m ≠ "")).filter (fun m => m ∉ acc)) := by
  induction c generalizing acc with
  | nil => simp [dedupFirst]
  | cons m rest ih =>
    rw [List.foldl_cons]
    by_cases h1 : m = ""
    · rw [if_neg (by tauto)]
      rw [ih]
      simp [h1]
    · by_cases h2 : m ∈ acc
      · rw [if_neg (by tauto)]
        rw [ih]
        simp [h1, h2]
      · rw [if_pos ⟨h1, h2⟩, ih]
        have hfil : ∀ l : List String,
            l.filter (fun m2 => decide (m2 ∉ acc ++ [m])) =
              ((l.filter (fun m2 => decide (m2 ∉ acc))).filter
                (fun m2 => decide (m2 ≠ m))) := by
          intro l
          rw [List.filter_filter]
          apply List.filter_congr
          intro a _
          by_cases ha1 : a ∈ acc <;> by_cases ha2 : a = m <;> simp [ha1, ha2]
        have hstep : List.filter (fun m2 => decide (m2 ∉ acc))
            (List.filter (fun m2 => decide (m2 ≠ "")) (m :: rest)) =
            m :: List.filter (fun m2 => decide (m2 ∉ acc))
              (List.filter (fun m2 => decide (m2 ≠ "")) rest) := by
          rw [List.filter_cons, if_pos (by simp [h1]), List.filter_cons,
            if_pos (by simp [h2])]
        rw [hfil, hstep]
        simp only [dedupFirst]
        simp

/-- The chain construction `buildModelChain` equals the spec-side description: the configured
candidates with empty entries dropped and duplicates removed keeping the
first occurrence, in order. -/
theorem buildModelChain_eq_dedupFirst (c : List String) :
    buildModelChain c = dedupFirst (c.filter (fun m => m ≠ "")) := by
  rw [buildModelChain, buildModelChain_foldl]
  simp

/-- C9: the model chain for a chunk invocation is the configured candidate
list (primary, fallback, second fallback) with empty entries dropped and
duplicates removed preserving the first occurrence and the configured
order; when the resulting chain is empty the invocation fails with the
configuration error and an empty trace — no model is ever called. -/
theorem modelChain_dedup_and_configError {R : Type}
    (oracle : String → Nat → Outcome R) (m1 m2 m3 : String) :
    buildModelChain [m1, m2, m3] =
      dedupFirst ([m1, m2, m3].filter (fun m => m ≠ "")) ∧
    (buildModelChain [m1, m2, m3] = [] →
      extractFromPdfChunk oracle [m1, m2, m3] =
        (Except.error InvokeError.configError, [])) := by
  refine ⟨buildModelChain_eq_dedupFirst [m1, m2, m3], ?_⟩
  intro h
  rw [extractFromPdfChunk, h]
  rfl

/-- Witness for C9: the default-style configuration with the primary
repeated as second fallback dedups to two models in order, and an
all-empty configuration raises the configuration error with no model
called. -/
theorem modelChain_dedup_and_configError_witness :
    buildModelChain ["gemini-2.5-flash-lite", "gemini-2.5-flash", "gemini-2.5-flash-lite"] =
      dedupFirst (["gemini-2.5-flash-lite", "gemini-2.5-flash",
        "gemini-2.5-flash-lite"].filter (fun m => m ≠ "")) ∧
    extractFromPdfChunk (fun _ _ => (Outcome.otherError : Outcome Nat)) ["", "", ""] =
      (Except.error InvokeError.configError, []) :=
  ⟨(modelChain_dedup_and_configError (fun _ _ => (Outcome.otherError : Outcome Nat))
      "gemini-2.5-flash-lite" "gemini-2.5-flash" "gemini-2.5-flash-lite").1,
   (modelChain_dedup_and_configError (fun _ _ => (Outcome.otherError : Outcome Nat))
      "" "" "").2 rfl⟩

/-!  ModelInvoker: retry and fallback lemmas (C5). -/

/-- A truncation at attempt `a` (after retryable failures before it) stops
the model's retry loop at once: exactly `a + 1` calls, the recorded backoff
sleeps, and the truncation re-raised. -/
theorem tryAttempts_truncation_stops {R : Type} (oracle : Nat → Outcome R)
    (m : String) (a : Nat) (ha : a < 3)
    (hprev : ∀ j, j < a →
      oracle j = Outcome.parseError ∨ oracle j = Outcome.otherError)
    (htr : oracle a = Outcome.truncation) :
    tryAttempts oracle m 3 =
      (Except.error a, backoffTrace m a ++ [Event.call m a]) := by
  have hr : List.range 3 = [0, 1, 2] := rfl
  interval_cases a
  · simp [tryAttempts, tryAttemptsLoop, hr, htr, backoffTrace]
  · rcases hprev 0 (by norm_num) with h0 | h0 <;>
      simp [tryAttempts, tryAttemptsLoop, hr, h0, htr, backoffTrace]
  · rcases hprev 0 (by norm_num) with h0 | h0 <;>
      rcases hprev 1 (by norm_num) with h1 | h1 <;>
        simp [tryAttempts, tryAttemptsLoop, hr, h0, h1, htr, backoffTrace]

/-- A model whose three attempts all fail retryably is retried exactly three
times with doubling backoff (`2 ** 0`, `2 ** 1` seconds) and then gives up
with `None`. -/
theorem tryAttempts_all_retryable {R : Type} (oracle : Nat → Outcome R)
    (m : String)
    (h : ∀ j, j < 3 →
      oracle j = Outcome.parseError ∨ oracle j = Outcome.otherError) :
    tryAttempts oracle m 3 =
      (Except.ok none,
        [Event.call m 0, Event.sleep (2 ^ 0), Event.call m 1,
         Event.sleep (2 ^ 1), Event.call m 2]) := by
  have hr : List.range 3 = [0, 1, 2] := rfl
  rcases h 0 (by norm_num) with h0 | h0 <;>
    rcases h 1 (by norm_num) with h1 | h1 <;>
      rcases h 2 (by norm_num) with h2 | h2 <;>
        simp [tryAttempts, tryAttemptsLoop, hr, h0, h1, h2]

/-- A truncated model hands control to the rest of the chain with the
truncation recorded in `last_error`. -/
theorem runChain_cons_truncation {R : Type} (oracle : String → Nat → Outcome R)
    (m : String) (rest : List String) (lastError : Option (String × Nat))
    (a : Nat) (tr : List Event)
    (h : tryAttempts (oracle m) m 3 = (Except.error a, tr)) :
    runChain oracle (m :: rest) lastError =
      ((runChain oracle rest (some (m, a))).1,
       tr ++ (runChain oracle rest (some (m, a))).2) := by
  simp [runChain, h]

/-- The first model of the chain to return a parsed result determines the
chain's output. -/
theorem runChain_first_success {R : Type} (oracle : String → Nat → Outcome R)
    (pre : List String) (m : String) (post : List String)
    (lastError : Option (String × Nat)) (r : R)
    (hpre : ∀ m2 ∈ pre, isNoSuccess (tryAttempts (oracle m2) m2 3).1)
    (hm : (tryAttempts (oracle m) m 3).1 = Except.ok (some r)) :
    (runChain oracle (pre ++ m :: post) lastError).1 = Except.ok r := by
  induction pre generalizing lastError with
  | nil =>
    rcases h : tryAttempts (oracle m) m 3 with ⟨res, tr⟩
    rw [h] at hm
    simp only at hm
    subst hm
    simp [runChain, h]
  | cons m0 pre' ih =>
    have h0 := hpre m0 (by simp)
    rcases h : tryAttempts (oracle m0) m0 3 with ⟨res, tr⟩
    rw [h] at h0
    simp only at h0
    cases res with
    | ok o =>
      cases o with
      | some r2 => simp [isNoSuccess] at h0
      | none =>
        simp only [List.cons_append, runChain, h]
        exact ih lastError (fun m2 hm2 => hpre m2 (by simp [hm2]))
    | error a =>
      simp only [List.cons_append, runChain, h]
      exact ih (some (m0, a)) (fun m2 hm2 => hpre m2 (by simp [hm2]))

/-- When every model of the chain fails, the chain's result is the error
carrying the final recorded `last_error`. -/
theorem runChain_all_fail {R : Type} (oracle : String → Nat → Outcome R)
    (models : List String) :
    ∀ lastError, (∀ m ∈ models, isNoSuccess (tryAttempts (oracle m) m 3).1) →
      (runChain oracle models lastError).1 =
        Except.error (lastTruncation oracle models lastError) := by
  induction models with
  | nil =>
    intro le h
    simp [runChain, lastTruncation]
  | cons m rest ih =>
    intro le h
    have h0 := h m (by simp)
    rcases htr : tryAttempts (oracle m) m 3 with ⟨res, tr⟩
    rw [htr] at h0
    simp only at h0
    cases res with
    | ok o =>
      cases o with
      | some r2 => simp [isNoSuccess] at h0
      | none =>
        simp only [runChain, lastTruncation, htr]
        exact ih le (fun m2 hm2 => h m2 (by simp [hm2]))
    | error a =>
      simp only [runChain, lastTruncation, htr]
      exact ih (some (m, a)) (fun m2 hm2 => h m2 (by simp [hm2]))

/-- The chain only errors when every one of its models failed. -/
theorem runChain_error_all_fail {R : Type} (oracle : String → Nat → Outcome R)
    (models : List String) :
    ∀ lastError e, (runChain oracle models lastError).1 = Except.error e →
      ∀ m ∈ models, isNoSuccess (tryAttempts (oracle m) m 3).1 := by
  induction models with
  | nil =>
    intro le e h m hm
    cases hm
  | cons m0 rest ih =>
    intro le e h m hm
    rcases htr : tryAttempts (oracle m0) m0 3 with ⟨res, tr⟩
    cases res with
    | ok o =>
      cases o with
      | some r2 => simp [runChain, htr] at h
      | none =>
        rcases List.mem_cons.mp hm with rfl | hm'
        · rw [htr]
          simp [isNoSuccess]
        · simp only [runChain, htr] at h
          exact ih le e h m hm'
    | error a =>
      rcases List.mem_cons.mp hm with rfl | hm'
      · rw [htr]
        simp [isNoSuccess]
      · simp only [runChain, htr] at h
        exact ih (some (m0, a)) e h m hm'

/-- C5: for a chunk invocation over a non-empty model chain: a truncated
response moves to the next model at once (no remaining retries consumed,
the truncation recorded as `last_error`); a parse error or other error is
retried on the same model up to 3 attempts with exponentially doubling
backoff; the first model with a parsed result determines the output with no
error escaping; and the invocation errors — as `AllModelsExhausted` carrying
the last recorded error — exactly when every model of the chain has been
exhausted. -/
theorem chunkInvocation_fallback_spec {R : Type}
    (oracle : String → Nat → Outcome R) (models : List String)
    (hn : models ≠ []) :
    (∀ candidates, buildModelChain candidates = models →
      extractFromPdfChunk oracle candidates =
        (match runChain oracle models none with
         | (Except.ok r, tr) => (Except.ok r, tr)
         | (Except.error lastError, tr) =>
             (Except.error (InvokeError.allModelsExhausted lastError), tr))) ∧
    (∀ m a, a < 3 →
      (∀ j, j < a →
        oracle m j = Outcome.parseError ∨ oracle m j = Outcome.otherError) →
      oracle m a = Outcome.truncation →
      tryAttempts (oracle m) m 3 =
        (Except.error a, backoffTrace m a ++ [Event.call m a])) ∧
    (∀ m, (∀ j, j < 3 →
        oracle m j = Outcome.parseError ∨ oracle m j = Outcome.otherError) →
      tryAttempts (oracle m) m 3 =
        (Except.ok none,
          [Event.call m 0, Event.sleep (2 ^ 0), Event.call m 1,
           Event.sleep (2 ^ 1), Event.call m 2])) ∧
    (∀ m rest lastError a tr,
      tryAttempts (oracle m) m 3 = (Except.error a, tr) →
      runChain oracle (m :: rest) lastError =
        ((runChain oracle rest (some (m, a))).1,
         tr ++ (runChain oracle rest (some (m, a))).2)) ∧
    (∀ pre m post lastError r, models = pre ++ m :: post →
      (∀ m2 ∈ pre, isNoSuccess (tryAttempts (oracle m2) m2 3).1) →
      (tryAttempts (oracle m) m 3).1 = Except.ok (some r) →
      (runChain oracle models lastError).1 = Except.ok r) ∧
    ((∀ m ∈ models, isNoSuccess (tryAttempts (oracle m) m 3).1) →
      (runChain oracle models none).1 =
        Except.error (lastTruncation oracle models none)) ∧
    (∀ e, (runChain oracle models none).1 = Except.error e →
      ∀ m ∈ models, isNoSuccess (tryAttempts (oracle m) m 3).1) := by
  refine ⟨?_, ?_, ?_, ?_, ?_, ?_, ?_⟩
  · intro candidates hc
    rw [extractFromPdfChunk, hc, if_neg (by simp [hn])]
  · intro m a ha hprev htr
    exact tryAttempts_truncation_stops (oracle m) m a ha hprev htr
  · intro m h
    exact tryAttempts_all_retryable (oracle m) m h
  · intro m rest lastError a tr h
    exact runChain_cons_truncation oracle m rest lastError a tr h
  · intro pre m post lastError r hsplit hpre hm
    rw [hsplit]
    exact runChain_first_success oracle pre m post lastError r hpre hm
  · intro h
    exact runChain_all_fail oracle models none h
  · intro e h
    exact runChain_error_all_fail oracle models none e h

/-- Witness for C5 on the spec's §8 fallback scenario (`m1` truncates, `m2`
parse-errors, `m3` succeeds): the chain yields model 3's parsed output
`42`; and with a chain whose every model truncates immediately, the
invocation errors carrying the last recorded truncation (`m2`, attempt 0). -/
theorem chunkInvocation_fallback_spec_witness :
    (runChain fallbackScenarioOracle ["m1", "m2", "m3"] none).1 = Except.ok 42 ∧
    (runChain alwaysTruncateOracle ["m1", "m2"] none).1 =
      Except.error (some ("m2", 0)) := by
  constructor
  · have h := chunkInvocation_fallback_spec fallbackScenarioOracle
      ["m1", "m2", "m3"] (by simp)
    exact h.2.2.2.2.1 ["m1", "m2"] "m3" [] none 42 rfl
      (by intro m2 hm2; fin_cases hm2 <;> rfl) rfl
  · have h := chunkInvocation_fallback_spec alwaysTruncateOracle
      ["m1", "m2"] (by simp)
    have h2 := h.2.2.2.2.2.1 (by intro m hm; fin_cases hm <;> rfl)
    exact h2.trans (congrArg Except.error rfl)

/-!  PipelineController: the per-document chunk loop (C6). -/

/-- The chunk-loop fold in closed form: the accumulator is the merge, in
order, of the successful chunks' results only, and the counter counts
them. -/
theorem processChunks_foldl {E : Type} (results : List (Except E PartialResult)) :
    ∀ (acc : List (String × JVal)) (n : Nat),
      results.foldl processChunkStep (acc, n) =
      ((okResults results).foldl deepMergeExtraction acc,
        n + (okResults results).length) := by
  induction results with
  | nil =>
    intro acc n
    simp [okResults]
  | cons cr rest ih =>
    intro acc n
    cases cr with
    | ok r =>
      simp only [List.foldl_cons, processChunkStep, okResults, ih, List.length_cons]
      rw [Prod.mk.injEq]
      exact ⟨rfl, by omega⟩
    | error e =>
      simp only [List.foldl_cons, processChunkStep, okResults, ih]

/-- C6: for a document with at least one chunk, a chunk's exception never
aborts the run — the loop continues in ascending chunk order; the run fails
with the all-chunks-failed error exactly when zero chunks succeeded, and
otherwise returns the accumulator obtained by merging the successful
chunks' partial results in chunk order, failed chunks contributing
nothing. -/
theorem processDocumentChunks_spec {E : Type}
    (results : List (Except E PartialResult)) (hne : results ≠ []) :
    (okResults results = [] →
      processDocumentChunks results = Except.error PipelineError.allChunksFailed) ∧
    (okResults results ≠ [] →
      processDocumentChunks results =
        Except.ok ((okResults results).foldl deepMergeExtraction [])) := by
  have hlen : ¬results.length = 0 := by
    simpa [List.length_eq_zero] using hne
  constructor
  · intro hok
    rw [processDocumentChunks, if_neg hlen]
    simp only [processChunks_foldl results [] 0, hok]
    rfl
  · intro hok
    rw [processDocumentChunks, if_neg hlen]
    simp only [processChunks_foldl results [] 0]
    have hpos : ¬(0 + (okResults results).length = 0) := by
      have hp := List.length_pos.mpr hok
      omega
    rw [if_neg hpos]

/-- Witness for C6: a run whose single chunk fails ends with the
all-chunks-failed error; a three-chunk run whose middle chunk raises ends
with the merge, in order, of chunks 1 and 3 only. -/
theorem processDocumentChunks_spec_witness :
    processDocumentChunks [Except.error "model exhausted"] =
      Except.error PipelineError.allChunksFailed ∧
    processDocumentChunks
      [Except.ok { fieldsSet := ["court"], data := [("court", JVal.str "PN")] },
       (Except.error "chunk 2 failed" :
         Except String PartialResult),
       Except.ok { fieldsSet := ["verdict"], data := [("verdict", JVal.str "guilty")] }] =
      Except.ok [("court", JVal.str "PN"), ("verdict", JVal.str "guilty")] := by
  constructor
  · exact (processDocumentChunks_spec [Except.error "model exhausted"]
      (by simp)).1 rfl
  · have h := (processDocumentChunks_spec
      [Except.ok { fieldsSet := ["court"], data := [("court", JVal.str "PN")] },
       (Except.error "chunk 2 failed" : Except String PartialResult),
       Except.ok { fieldsSet := ["verdict"], data := [("verdict", JVal.str "guilty")] }]
      (by simp)).2 (by simp [okResults])
    exact h.trans (congrArg Except.ok rfl)

/-!  Persistence: the failure record (C8). -/

/-- C8: when a document's run fails entirely and database storage is
enabled (a truthy database URL), a row is persisted containing
`status = "failed"`, the document's key (its source file name) and the
error message — appended as a fresh row, since the failure path passes
`extraction_id = None`. -/
theorem storeFailureRecord_spec (db : List DbRow) (freshId : Nat)
    (databaseUrl : Option String) (fileName errMsg : String)
    (henabled : strTruthy databaseUrl = true) :
    storeFailureRecord db freshId true databaseUrl fileName errMsg =
      db ++ [{ id := freshId, extractionId := none, extractionResult := none,
               confidence := none, summaryId := none, summaryEn := none,
               extractionEmbedding := none, summaryEmbedding := none,
               status := "failed", errorMessage := some errMsg,
               sourceFile := some fileName }] ∧
    ∃ row ∈ storeFailureRecord db freshId true databaseUrl fileName errMsg,
      row.status = "failed" ∧ row.sourceFile = some fileName ∧
      row.errorMessage = some errMsg := by
  have h1 : storeFailureRecord db freshId true databaseUrl fileName errMsg =
      db ++ [{ id := freshId, extractionId := none, extractionResult := none,
               confidence := none, summaryId := none, summaryEn := none,
               extractionEmbedding := none, summaryEmbedding := none,
               status := "failed", errorMessage := some errMsg,
               sourceFile := some fileName }] := by
    rw [storeFailureRecord, if_pos (by simp [henabled])]
    rfl
  refine ⟨h1, ?_⟩
  rw [h1]
  refine ⟨{ id := freshId, extractionId := none, extractionResult := none,
            confidence := none, summaryId := none, summaryEn := none,
            extractionEmbedding := none, summaryEmbedding := none,
            status := "failed", errorMessage := some errMsg,
            sourceFile := some fileName }, ?_, rfl, rfl, rfl⟩
  simp

/-- Witness for C8 at a concrete failed run: the failure row for
`doc1.pdf` is appended with status `failed` and the error message. -/
theorem storeFailureRecord_spec_witness :
    storeFailureRecord [] 0 true (some "postgresql://db") "doc1.pdf"
      "All 3 chunks failed for doc1" =
      [{ id := 0, extractionId := none, extractionResult := none,
         confidence := none, summaryId := none, summaryEn := none,
         extractionEmbedding := none, summaryEmbedding := none,
         status := "failed",
         errorMessage := some "All 3 chunks failed for doc1",
         sourceFile := some "doc1.pdf" }] ∧
    ∃ row ∈ storeFailureRecord [] 0 true (some "postgresql://db") "doc1.pdf"
        "All 3 chunks failed for doc1",
      row.status = "failed" ∧ row.sourceFile = some "doc1.pdf" ∧
      row.errorMessage = some "All 3 chunks failed for doc1" := by
  have h := storeFailureRecord_spec [] 0 (some "postgresql://db") "doc1.pdf"
    "All 3 chunks failed for doc1" rfl
  exact ⟨h.1.trans rfl, h.2⟩

/-!  Heap frame lemmas: the merge never writes to a pre-existing address
(C10). -/

theorem Heap.next_setField (h : Heap) (a : Nat) (k : String) (v : HVal) :
    (h.setField a k v).next = h.next := rfl

theorem Heap.mem_setField_ne (h : Heap) (a : Nat) (k : String) (v : HVal)
    (a2 : Nat) (hne : a2 ≠ a) : (h.setField a k v).mem a2 = h.mem a2 := by
  simp [Heap.setField, hne]

theorem Heap.next_allocDict (h : Heap) (entries : List (String × HVal)) :
    (h.allocDict entries).1.next = h.next + 1 := rfl

theorem Heap.mem_allocDict_ne (h : Heap) (entries : List (String × HVal))
    (a : Nat) (hne : a ≠ h.next) : (h.allocDict entries).1.mem a = h.mem a := by
  simp [Heap.allocDict, hne]

mutual

/-- The heap-level `_merge_nested_value` allocates only fresh addresses: every
address below any bound `n ≤ next` is left untouched, and `next` never
decreases. -/
theorem hMergeNestedValue_frame (fuel : Nat) (h : Heap) (currVal newVal : HVal)
    (n : Nat) (hn : n ≤ h.next) :
    n ≤ (hMergeNestedValue fuel h currVal newVal).1.next ∧
    ∀ a, a < n → (hMergeNestedValue fuel h currVal newVal).1.mem a = h.mem a := by
  match fuel with
  | 0 =>
    have heq : hMergeNestedValue 0 h currVal newVal = (h, newVal) := by
      simp [hMergeNestedValue]
    rw [heq]
    exact ⟨hn, fun a ha => rfl⟩
  | fuel + 1 =>
    match newVal with
    | HVal.ref na =>
      match currVal with
      | HVal.ref ca =>
        have heq : hMergeNestedValue (fuel + 1) h (HVal.ref ca) (HVal.ref na) =
            (hMergeObjItems fuel (h.allocDict (h.entries ca)).1 ca
              (h.allocDict (h.entries ca)).2
              ((h.allocDict (h.entries ca)).1.entries na),
             HVal.ref (h.allocDict (h.entries ca)).2) := by
          simp [hMergeNestedValue]
        have hOI := hMergeObjItems_frame fuel (h.allocDict (h.entries ca)).1 ca
          (h.allocDict (h.entries ca)).2
          ((h.allocDict (h.entries ca)).1.entries na) n
          (by rw [Heap.next_allocDict]; omega) hn
        rw [heq]
        exact ⟨hOI.1, fun a ha => by
          rw [hOI.2 a ha, Heap.mem_allocDict_ne h (h.entries ca) a (by omega)]⟩
      | HVal.null =>
        have heq : hMergeNestedValue (fuel + 1) h HVal.null (HVal.ref na) =
            (h, HVal.ref na) := by simp [hMergeNestedValue]
        rw [heq]
        exact ⟨hn, fun a ha => rfl⟩
      | HVal.str s =>
        have heq : hMergeNestedValue (fuel + 1) h (HVal.str s) (HVal.ref na) =
            (h, HVal.ref na) := by simp [hMergeNestedValue]
        rw [heq]
        exact ⟨hn, fun a ha => rfl⟩
      | HVal.num i =>
        have heq : hMergeNestedValue (fuel + 1) h (HVal.num i) (HVal.ref na) =
            (h, HVal.ref na) := by simp [hMergeNestedValue]
        rw [heq]
        exact ⟨hn, fun a ha => rfl⟩
      | HVal.bool b =>
        have heq : hMergeNestedValue (fuel + 1) h (HVal.bool b) (HVal.ref na) =
            (h, HVal.ref na) := by simp [hMergeNestedValue]
        rw [heq]
        exact ⟨hn, fun a ha => rfl⟩
      | HVal.arr cs =>
        have heq : hMergeNestedValue (fuel + 1) h (HVal.arr cs) (HVal.ref na) =
            (h, HVal.ref na) := by simp [hMergeNestedValue]
        rw [heq]
        exact ⟨hn, fun a ha => rfl⟩
    | HVal.arr xs =>
      have hfst : (hMergeNestedValue (fuel + 1) h currVal (HVal.arr xs)).1 = h := by
        cases currVal
        all_goals (simp only [hMergeNestedValue]; split_ifs <;> rfl)
      rw [hfst]
      exact ⟨hn, fun a ha => rfl⟩
    | HVal.null =>
      have hfst : (hMergeNestedValue (fuel + 1) h currVal HVal.null).1 = h := by
        cases currVal <;> simp [hMergeNestedValue]
      rw [hfst]
      exact ⟨hn, fun a ha => rfl⟩
    | HVal.str s =>
      have hfst : (hMergeNestedValue (fuel + 1) h currVal (HVal.str s)).1 = h := by
        cases currVal <;> simp [hMergeNestedValue]
      rw [hfst]
      exact ⟨hn, fun a ha => rfl⟩
    | HVal.num i =>
      have hfst : (hMergeNestedValue (fuel + 1) h currVal (HVal.num i)).1 = h := by
        cases currVal <;> simp [hMergeNestedValue]
      rw [hfst]
      exact ⟨hn, fun a ha => rfl⟩
    | HVal.bool b =>
      have hfst : (hMergeNestedValue (fuel + 1) h currVal (HVal.bool b)).1 = h := by
        cases currVal <;> simp [hMergeNestedValue]
      rw [hfst]
      exact ⟨hn, fun a ha => rfl⟩
termination_by (fuel, 0)

/-- The heap-level nested-object loop writes only to the fresh result dict
`ra` and to addresses allocated during the loop. -/
theorem hMergeObjItems_frame (fuel : Nat) (h : Heap) (ca ra : Nat)
    (items : List (String × HVal)) (n : Nat) (hn : n ≤ h.next) (hra : n ≤ ra) :
    n ≤ (hMergeObjItems fuel h ca ra items).next ∧
    ∀ a, a < n → (hMergeObjItems fuel h ca ra items).mem a = h.mem a := by
  match items with
  | [] =>
    have heq : hMergeObjItems fuel h ca ra [] = h := by simp [hMergeObjItems]
    rw [heq]
    exact ⟨hn, fun a ha => rfl⟩
  | (k, v) :: rest =>
    by_cases hmem : dictMem (h.entries ca) k
    · have hNV := hMergeNestedValue_frame fuel h (hGet (h.entries ca) k) v n hn
      have hset : ∀ a, a < n →
          ((hMergeNestedValue fuel h (hGet (h.entries ca) k) v).1.setField ra k
            (hMergeNestedValue fuel h (hGet (h.entries ca) k) v).2).mem a =
          h.mem a := by
        intro a ha
        rw [Heap.mem_setField_ne _ _ _ _ _ (by omega), hNV.2 a ha]
      have hOI := hMergeObjItems_frame fuel
        ((hMergeNestedValue fuel h (hGet (h.entries ca) k) v).1.setField ra k
          (hMergeNestedValue fuel h (hGet (h.entries ca) k) v).2) ca ra rest n
        (by rw [Heap.next_setField]; exact hNV.1) hra
      rw [show hMergeObjItems fuel h ca ra ((k, v) :: rest) =
        hMergeObjItems fuel
          ((hMergeNestedValue fuel h (hGet (h.entries ca) k) v).1.setField ra k
            (hMergeNestedValue fuel h (hGet (h.entries ca) k) v).2) ca ra rest
        from by simp only [hMergeObjItems]; rw [if_pos hmem]]
      exact ⟨hOI.1, fun a ha => (hOI.2 a ha).trans (hset a ha)⟩
    · by_cases hv : v.isNull = true
      · have hOI := hMergeObjItems_frame fuel h ca ra rest n hn hra
        rw [show hMergeObjItems fuel h ca ra ((k, v) :: rest) =
          hMergeObjItems fuel h ca ra rest
          from by simp only [hMergeObjItems]; rw [if_neg hmem, if_neg (by simp [hv])]]
        exact hOI
      · have hOI := hMergeObjItems_frame fuel (h.setField ra k v) ca ra rest n
          (by rw [Heap.next_setField]; exact hn) hra
        rw [show hMergeObjItems fuel h ca ra ((k, v) :: rest) =
          hMergeObjItems fuel (h.setField ra k v) ca ra rest
          from by simp only [hMergeObjItems]; rw [if_neg hmem, if_pos (by simp [hv])]]
        refine ⟨hOI.1, fun a ha => ?_⟩
        rw [hOI.2 a ha, Heap.mem_setField_ne _ _ _ _ _ (by omega)]
termination_by (fuel, items.length + 1)

end

/-- The heap-level field loop of `_deep_merge_extraction` writes only to
the fresh result dict `ra` and to addresses allocated during the loop. -/
theorem hDeepMergeFields_frame (fuel : Nat) (fieldsSet : List String) :
    ∀ (h : Heap) (na ra : Nat) (n : Nat), n ≤ h.next → n ≤ ra →
      n ≤ (hDeepMergeFields fuel h na ra fieldsSet).next ∧
      ∀ a, a < n → (hDeepMergeFields fuel h na ra fieldsSet).mem a = h.mem a := by
  induction fieldsSet with
  | nil => exact fun h na ra n hn hra => ⟨hn, fun a ha => rfl⟩
  | cons f rest ih =>
    intro h na ra n hn hra
    by_cases h1 : (hGet (h.entries ra) f).isNull = true
    · by_cases h2 : (hGet (h.entries na) f).isNull = true
      · have hIH := ih h na ra n hn hra
        rw [show hDeepMergeFields fuel h na ra (f :: rest) =
          hDeepMergeFields fuel h na ra rest
          from by simp only [hDeepMergeFields]; rw [if_pos h1, if_neg (by simp [h2])]]
        exact hIH
      · have hIH := ih (h.setField ra f (hGet (h.entries na) f)) na ra n
          (by rw [Heap.next_setField]; exact hn) hra
        rw [show hDeepMergeFields fuel h na ra (f :: rest) =
          hDeepMergeFields fuel (h.setField ra f (hGet (h.entries na) f)) na ra rest
          from by simp only [hDeepMergeFields]; rw [if_pos h1, if_pos (by simp [h2])]]
        refine ⟨hIH.1, fun a ha => ?_⟩
        rw [hIH.2 a ha, Heap.mem_setField_ne _ _ _ _ _ (by omega)]
    · have hNV := hMergeNestedValue_frame fuel h (hGet (h.entries ra) f)
        (hGet (h.entries na) f) n hn
      have hIH := ih
        ((hMergeNestedValue fuel h (hGet (h.entries ra) f) (hGet (h.entries na) f)).1.setField
          ra f (hMergeNestedValue fuel h (hGet (h.entries ra) f) (hGet (h.entries na) f)).2)
        na ra n (by rw [Heap.next_setField]; exact hNV.1) hra

      rw [show hDeepMergeFields fuel h na ra (f :: rest) =
        hDeepMergeFields fuel
          ((hMergeNestedValue fuel h (hGet (h.entries ra) f)
            (hGet (h.entries na) f)).1.setField ra f
            (hMergeNestedValue fuel h (hGet (h.entries ra) f)
              (hGet (h.entries na) f)).2) na ra rest
        from by simp only [hDeepMergeFields]; rw [if_neg h1]]
      refine ⟨hIH.1, fun a ha => ?_⟩
      rw [hIH.2 a ha, Heap.mem_setField_ne _ _ _ _ _ (by omega), hNV.2 a ha]

/-- C10: the merge is pure with respect to its inputs — on a well-formed
heap, `_deep_merge_extraction` returns a freshly allocated record (an
address not allocated before the call) and leaves every pre-existing
object, at every nesting level of both the accumulator and the partial's
data, exactly as it was: no input is mutated. -/
theorem deepMerge_pure_no_mutation (fuel : Nat) (h : Heap) (ca na : Nat)
    (fieldsSet : List String) (hwf : h.WF) :
    (∀ a, ((h.mem a).isSome →
      (hDeepMerge fuel h ca na fieldsSet).1.mem a = h.mem a)) ∧
    h.mem (hDeepMerge fuel h ca na fieldsSet).2 = none := by
  have halloc : (h.allocDict (h.entries ca)).1.next = h.next + 1 := rfl
  have hF := hDeepMergeFields_frame fuel fieldsSet (h.allocDict (h.entries ca)).1
    na (h.allocDict (h.entries ca)).2 h.next (by rw [halloc]; omega) (by exact le_refl _)
  constructor
  · intro a hsome
    have halt : a < h.next := by
      by_contra hge
      rw [hwf a (by omega)] at hsome
      simp at hsome
    rw [show (hDeepMerge fuel h ca na fieldsSet).1 =
      hDeepMergeFields fuel (h.allocDict (h.entries ca)).1 na
        (h.allocDict (h.entries ca)).2 fieldsSet from rfl]
    rw [hF.2 a halt, Heap.mem_allocDict_ne h (h.entries ca) a (by omega)]
  · rw [show (hDeepMerge fuel h ca na fieldsSet).2 = h.next from rfl]
    exact hwf h.next (le_refl _)

/-- Witness for C10 on a concrete heap holding the accumulator at address 0
and the partial's data at address 1: after the merge both inputs are
unchanged and the returned record is a fresh address. -/
theorem deepMerge_pure_no_mutation_witness :
    (hDeepMerge 5 exampleMergeHeap 0 1 ["name"]).1.mem 0 = exampleMergeHeap.mem 0 ∧
    (hDeepMerge 5 exampleMergeHeap 0 1 ["name"]).1.mem 1 = exampleMergeHeap.mem 1 ∧
    exampleMergeHeap.mem (hDeepMerge 5 exampleMergeHeap 0 1 ["name"]).2 = none := by
  have hwf : exampleMergeHeap.WF := by
    intro a ha
    match a, ha with
    | a + 2, _ => rfl
  have h := deepMerge_pure_no_mutation 5 exampleMergeHeap 0 1 ["name"] hwf
  exact ⟨h.1 0 (by rw [show exampleMergeHeap.mem 0 =
      some [("name", HVal.str "Budi")] from rfl]; rfl),
    h.1 1 (by rw [show exampleMergeHeap.mem 1 =
      some [("name", HVal.null)] from rfl]; rfl), h.2⟩

end LegalCouncil
